import Mathlib

/-!
Shallow embedding of the yaruki questionnaire script (the cache-versioned
variant of `script.js`): decision-tree navigation, answer-history replay,
localStorage persistence with version checking, and DOM-optional rendering.

JavaScript values are modelled as follows: a possibly-`undefined` string is
`Option String`; localStorage is a record of four `Option String` values;
a thrown exception is a `true` first component of a `Bool × World` result,
paired with the world state at the moment of the throw (later statements of
the function body are skipped, earlier mutations persist).
-/

namespace Yaruki

/-- A decision-tree node as stored in `decision-tree.json`.  Question nodes
carry `step`, `text`, `yes`, `no`; terminal (action) nodes carry `title` and
`content`.  A property absent from the JSON object is `none`. -/
structure Node where
  step : Option Nat := none
  text : Option String := none
  yes : Option String := none
  no : Option String := none
  title : Option String := none
  content : Option String := none
deriving DecidableEq

/-- The decision tree: a JSON object, i.e. a finite map from node id to node,
modelled as an association list (`decisionTree` in the script). -/
abbrev Tree := List (String × Node)

/-- One element of `answerHistory`: the object
`\x7b question: node.text, answer: answer \x7d` pushed by `handleAnswer`.
`question` is `node.text`, which can be `undefined`. -/
structure HistoryEntry where
  question : Option String
  answer : String
deriving DecidableEq

/-- JavaScript string conversion of a string-or-undefined value, as performed
by `localStorage.setItem` and by property-key coercion: `undefined` becomes
the string `"undefined"`. -/
def jsString : Option String → String
  | none => "undefined"
  | some s => s

/-- JavaScript truthiness of a string-or-null/undefined value: `null`,
`undefined` and the empty string are falsy. -/
def truthy : Option String → Bool
  | none => false
  | some s => !(s == "")

/-- The four `yaruki-*` localStorage keys. -/
structure Storage where
  currentQuestion : Option String
  answerHistory : Option String
  result : Option String
  cacheVersion : Option String
deriving DecidableEq

/-- The script's global mutable session variables `currentQuestion` and
`answerHistory`.  `currentQuestion` is `Option String` because the script can
assign `undefined` to it (e.g. replaying through an absent branch). -/
structure State where
  currentQuestion : Option String
  answerHistory : List HistoryEntry
deriving DecidableEq

/-- The mutable part of a DOM element the script writes to. -/
structure Element where
  classHidden : Bool := false
  text : String := ""
  width : String := ""
  display : String := ""
deriving DecidableEq

/-- The DOM elements the script queries by id; `none` models
`document.getElementById` returning `null`. -/
structure Dom where
  questionContainer : Option Element := none
  questionText : Option Element := none
  yesBtn : Option Element := none
  noBtn : Option Element := none
  backBtn : Option Element := none
  progressFill : Option Element := none
  progressText : Option Element := none
  resultContainer : Option Element := none
deriving DecidableEq

/-- The whole mutable world the script touches: the loaded tree, localStorage,
the global session variables, the DOM, the installed click handlers (an
`onclick` closure is modelled by the node it captured), and a pending
`window.location.href` assignment. -/
structure World where
  tree : Tree
  storage : Storage
  state : State
  dom : Dom := {}
  onYes : Option Node := none
  onNo : Option Node := none
  onBack : Bool := false
  redirect : Option String := none
deriving DecidableEq

/-! ## JSON serialisation of the persisted values

`JSON.stringify` is modelled exactly for strings containing no character that
JSON escapes (no `"`, no `\`, no control characters); `parseHistory` reads a
stored value back as a history exactly on the grammar this serialiser emits.
The source distinguishes two failure shapes that a `List HistoryEntry` result
cannot: `JSON.parse` throwing (the code's reset-to-empty `catch` path) and
`JSON.parse` succeeding with a value of the wrong shape (which the code
assigns to `answerHistory` as-is).  `validJson` below recognises exactly the
strings `JSON.parse` accepts, so theorems about the `catch` path restrict to
values with `validJson = false`, where the code genuinely resets. -/

/-- Characters that `JSON.stringify` emits verbatim inside a string literal. -/
def goodChars (s : String) : Bool :=
  s.toList.all (fun c => c != '"' && c != '\\' && decide (32 ≤ c.toNat))

/-- A history entry whose serialisation is literal: question present, and both
strings free of characters JSON would escape. -/
def wellFormedEntry (e : HistoryEntry) : Bool :=
  (match e.question with
   | some q => goodChars q
   | none => false) && goodChars e.answer

/-- A history whose `JSON.stringify` image is the literal serialisation. -/
def wellFormedHistory (h : List HistoryEntry) : Bool :=
  h.all wellFormedEntry

/-- Literal fragment up to and including the opening quote of the question
value: an open brace, then `"question":"`. -/
def entryPre1 : String := "\x7b\"question\":\""

/-- Literal fragment of an entry without a question key: an open brace, then
`"answer":"`. -/
def entryPre2 : String := "\x7b\"answer\":\""

/-- Literal fragment between the question value's closing quote and the
answer value's opening quote. -/
def entryMid : String := ",\"answer\":\""

/-- Literal closing fragment after the answer value's closing quote: a close
brace. -/
def entryPost : String := "\x7d"

/-- `JSON.stringify` of a single history entry (an `undefined` question is
omitted, as `JSON.stringify` drops `undefined`-valued properties). -/
def encodeEntry (e : HistoryEntry) : String :=
  match e.question with
  | some q => entryPre1 ++ q ++ "\"" ++ entryMid ++ e.answer ++ "\"" ++ entryPost
  | none => entryPre2 ++ e.answer ++ "\"" ++ entryPost

/-- Comma-separated serialisations of the entries (the body of the array). -/
def encodeEntries : List HistoryEntry → String
  | [] => ""
  | [e] => encodeEntry e
  | e :: rest => encodeEntry e ++ "," ++ encodeEntries rest

/-- `JSON.stringify(answerHistory)`. -/
def encodeHistory (h : List HistoryEntry) : String :=
  "[" ++ encodeEntries h ++ "]"

/-- `JSON.stringify` of the result payload written by `showAction`
(`undefined` fields are omitted). -/
def stringifyResult (title content : Option String) : String :=
  "\x7b" ++
    (match title, content with
     | some t, some c => "\"title\":\"" ++ t ++ "\",\"content\":\"" ++ c ++ "\""
     | some t, none => "\"title\":\"" ++ t ++ "\""
     | none, some c => "\"content\":\"" ++ c ++ "\""
     | none, none => "") ++ "\x7d"

/-- Scan a JSON string literal body (no escape sequences): the characters up
to the next `"` and the remainder after it; fails if no closing quote. -/
def scanString : List Char → Option (List Char × List Char)
  | [] => none
  | c :: r =>
    if c = '"' then some ([], r)
    else
      match scanString r with
      | some (q, rest) => some (c :: q, rest)
      | none => none

/-- Consume an expected literal fragment from the front of the input. -/
def matchLeading : List Char → List Char → Option (List Char)
  | [], l => some l
  | _ :: _, [] => none
  | a :: ps, b :: ls => if a = b then matchLeading ps ls else none

/-- Parse one serialised history entry (with or without a question key). -/
def parseEntry (cs : List Char) : Option (HistoryEntry × List Char) :=
  match matchLeading entryPre1.toList cs with
  | some cs1 =>
    match scanString cs1 with
    | none => none
    | some (qc, cs2) =>
      match matchLeading entryMid.toList cs2 with
      | none => none
      | some cs3 =>
        match scanString cs3 with
        | none => none
        | some (ac, cs4) =>
          match matchLeading entryPost.toList cs4 with
          | none => none
          | some cs5 => some (⟨some (String.mk qc), String.mk ac⟩, cs5)
  | none =>
    match matchLeading entryPre2.toList cs with
    | none => none
    | some cs1 =>
      match scanString cs1 with
      | none => none
      | some (ac, cs2) =>
        match matchLeading entryPost.toList cs2 with
        | none => none
        | some cs3 => some (⟨none, String.mk ac⟩, cs3)

/-- Parse the comma-separated entries followed by the closing bracket.  The
fuel only bounds the number of entries; any fuel exceeding the entry count
gives the same answer. -/
def parseEntriesFuel : Nat → List Char → Option (List HistoryEntry)
  | 0, _ => none
  | Nat.succ f, cs =>
    if cs = [']'] then some []
    else
      match parseEntry cs with
      | none => none
      | some (e, rest) =>
        if rest = [']'] then some [e]
        else
          match rest with
          | c :: rest2 =>
            if c = ',' then (parseEntriesFuel f rest2).map (fun t => e :: t) else none
          | [] => none

/-- Reading a persisted answer-history value back as a history: `some h`
exactly when the value is the canonical serialisation `encodeHistory h` (no
escape sequences, no whitespace), `none` otherwise.  The `none` result
conflates `JSON.parse` throwing with `JSON.parse` succeeding on a value of
the wrong shape; only the former is the code's reset path, so theorems about
the reset additionally require `validJson = false` (see the section note). -/
def parseHistory (s : String) : Option (List HistoryEntry) :=
  match s.toList with
  | '[' :: rest => parseEntriesFuel (rest.length + 1) rest
  | _ => none

/-- Skip JSON whitespace (space, tab, line feed, carriage return). -/
def jsonWs : List Char → List Char
  | [] => []
  | c :: r => if c = ' ' ∨ c = '\t' ∨ c = '\n' ∨ c = '\r' then jsonWs r else c :: r

/-- Hexadecimal digit, for unicode escapes in JSON string literals. -/
def isHexDigit (c : Char) : Bool :=
  (48 ≤ c.toNat && c.toNat ≤ 57) || (97 ≤ c.toNat && c.toNat ≤ 102) ||
    (65 ≤ c.toNat && c.toNat ≤ 70)

/-- Decimal digit. -/
def isDigitChar (c : Char) : Bool :=
  48 ≤ c.toNat && c.toNat ≤ 57

/-- Skip the body of a JSON string literal (after its opening quote),
accepting the escape sequences `JSON.parse` accepts and rejecting raw
control characters and incomplete escapes. -/
def skipJsonString : List Char → Option (List Char)
  | [] => none
  | '"' :: r => some r
  | '\\' :: 'u' :: a :: b :: c :: d :: r =>
    if isHexDigit a && isHexDigit b && isHexDigit c && isHexDigit d then
      skipJsonString r
    else none
  | '\\' :: e :: r =>
    if e = '"' ∨ e = '\\' ∨ e = '/' ∨ e = 'b' ∨ e = 'f' ∨ e = 'n' ∨ e = 'r' ∨ e = 't' then
      skipJsonString r
    else none
  | c :: r => if 32 ≤ c.toNat then skipJsonString r else none

/-- Skip a run of decimal digits. -/
def skipDigitsLoop : List Char → List Char
  | [] => []
  | c :: r => if isDigitChar c then skipDigitsLoop r else c :: r

/-- Skip the sign-and-digits part of a JSON number exponent. -/
def skipJsonExpSign (cs : List Char) : Option (List Char) :=
  let r :=
    match cs with
    | '+' :: r2 => r2
    | '-' :: r2 => r2
    | _ => cs
  match r with
  | c :: r2 => if isDigitChar c then some (skipDigitsLoop r2) else none
  | [] => none

/-- Skip an optional JSON number exponent. -/
def skipJsonExp : List Char → Option (List Char)
  | 'e' :: r => skipJsonExpSign r
  | 'E' :: r => skipJsonExpSign r
  | cs => some cs

/-- Skip an optional JSON number fraction, then the optional exponent. -/
def skipJsonFrac : List Char → Option (List Char)
  | '.' :: r =>
    (match r with
      | c :: r2 => if isDigitChar c then skipJsonExp (skipDigitsLoop r2) else none
      | [] => none)
  | cs => skipJsonExp cs

/-- Skip a JSON number (optional minus, `0` or nonzero-led digits, optional
fraction and exponent). -/
def skipJsonNumber (cs : List Char) : Option (List Char) :=
  let cs1 :=
    match cs with
    | '-' :: r => r
    | _ => cs
  match cs1 with
  | '0' :: r => skipJsonFrac r
  | c :: r => if isDigitChar c then skipJsonFrac (skipDigitsLoop r) else none
  | [] => none

/-- Skip one JSON value (mode 0), an array body after its opening bracket
(mode 1: empty or elements), a non-empty element list (mode 3: an element
is required, so a trailing comma is rejected), an object body after its
opening brace (mode 2), or a non-empty member list (mode 4), returning the
remaining input.  The fuel decreases once per call, at most three calls
happen per consumed input character, and closing delimiters cost no fuel,
so a fuel exceeding four times the input length never runs out on an input
`JSON.parse` accepts. -/
def jsonSkip : Nat → Nat → List Char → Option (List Char)
  | 0, _, _ => none
  | Nat.succ f, 0, cs =>
    (match jsonWs cs with
      | [] => none
      | c :: r =>
        if c = '"' then skipJsonString r
        else if c = 't' then matchLeading ['r', 'u', 'e'] r
        else if c = 'f' then matchLeading ['a', 'l', 's', 'e'] r
        else if c = 'n' then matchLeading ['u', 'l', 'l'] r
        else if c = '\x7b' then jsonSkip f 2 r
        else if c = '[' then jsonSkip f 1 r
        else skipJsonNumber (c :: r))
  | Nat.succ f, 1, cs =>
    (match jsonWs cs with
      | ']' :: r => some r
      | cs2 => jsonSkip f 3 cs2)
  | Nat.succ f, 3, cs =>
    (match jsonSkip f 0 cs with
      | none => none
      | some rest =>
        match jsonWs rest with
        | ',' :: r2 => jsonSkip f 3 r2
        | ']' :: r2 => some r2
        | _ => none)
  | Nat.succ f, 2, cs =>
    (match jsonWs cs with
      | '\x7d' :: r => some r
      | cs2 => jsonSkip f 4 cs2)
  | Nat.succ f, 4, cs =>
    (match jsonWs cs with
      | '"' :: r =>
        (match skipJsonString r with
          | none => none
          | some rest =>
            match jsonWs rest with
            | ':' :: r2 =>
              (match jsonSkip f 0 r2 with
                | none => none
                | some rest2 =>
                  match jsonWs rest2 with
                  | ',' :: r3 => jsonSkip f 4 r3
                  | '\x7d' :: r3 => some r3
                  | _ => none)
            | _ => none)
      | _ => none)
  | Nat.succ _, _, _ => none

/-- Whether `JSON.parse` accepts the string — the exact complement of the
`catch` path in `loadStateFromStorage`'s history restore. -/
def validJson (s : String) : Bool :=
  match jsonSkip (4 * s.length + 4) 0 s.toList with
  | some rest => (jsonWs rest).isEmpty
  | none => false

/-! ## The script's functions -/

/-- `questionId.startsWith('action_')`, deciding whether a node id names a
terminal (action/result) node. -/
def startsWithJs (s p : String) : Bool :=
  p.toList.isPrefixOf s.toList

/-- The expected cache schema version (`CACHE_VERSION`). -/
def CACHE_VERSION : String := "2"

/-- `clearAllYarukiCache()`: remove all four `yaruki-*` keys and reset the
in-memory session to the root with empty history. -/
def clearAllYarukiCache (w : World) : World :=
  { w with
      storage := { currentQuestion := none, answerHistory := none,
                   result := none, cacheVersion := none }
      state := { currentQuestion := some "q1", answerHistory := [] } }

/-- `loadStateFromStorage()`: the Persistence Layer's `loadSession`.
Version mismatch clears everything and stamps the new version; a result
without a current question resets result and history; otherwise the saved
question and (if parseable) the saved history are restored. -/
def loadStateFromStorage (w : World) : World :=
  if w.storage.cacheVersion ≠ some CACHE_VERSION then
    let w2 := clearAllYarukiCache w
    { w2 with storage := { w2.storage with cacheVersion := some CACHE_VERSION } }
  else
    let savedQuestion := w.storage.currentQuestion
    let savedHistory := w.storage.answerHistory
    let savedResult := w.storage.result
    if truthy savedResult && !truthy savedQuestion then
      { w with
          storage := { w.storage with result := none, answerHistory := none }
          state := { currentQuestion := some "q1", answerHistory := [] } }
    else
      let w2 :=
        if truthy savedQuestion then
          { w with state := { w.state with currentQuestion := savedQuestion } }
        else w
      if truthy savedHistory then
        match parseHistory (jsString savedHistory) with
        | some h => { w2 with state := { w2.state with answerHistory := h } }
        | none => { w2 with state := { w2.state with answerHistory := [] } }
      else w2

/-- The CSS width string `(step / totalSteps) * 100 + '%'` that
`updateProgress` writes.  The numeric value is the exact rational
`step * 100 / 7`; the decimal rendering of the JavaScript float is
abstracted by printing that fraction (no claim inspects this string). -/
def progressWidth : Option Nat → String
  | some s => toString (s * 100) ++ "/7%"
  | none => "NaN%"

/-- The template string rendering of `step` (an absent step prints as
`undefined`, as in JavaScript template interpolation). -/
def stepString : Option Nat → String
  | some s => toString s
  | none => "undefined"

/-- `updateProgress(step)`: writes `progressFill.style.width` and
`progressText.textContent` with NO null guard on either element — a missing
element makes the property access throw (`true` result), after any earlier
write already happened. -/
def updateProgress (step : Option Nat) (dom : Dom) : Bool × Dom :=
  match dom.progressFill with
  | none => (true, dom)
  | some pf =>
    let dom := { dom with progressFill := some { pf with width := progressWidth step } }
    match dom.progressText with
    | none => (true, dom)
    | some pt =>
      let dom := { dom with progressText := some { pt with text := "質問 " ++ stepString step ++ "/7" } }
      (false, dom)

/-- The three null-guarded display updates at the head of `showQuestion`'s
question branch: unhide the question container, hide the result container,
and write the question text. -/
def questionDomUpdates (text : Option String) (dom : Dom) : Dom :=
  let dom :=
    match dom.questionContainer with
    | none => dom
    | some el => { dom with questionContainer := some { el with classHidden := false } }
  let dom :=
    match dom.resultContainer with
    | none => dom
    | some el => { dom with resultContainer := some { el with classHidden := true } }
  match dom.questionText with
  | none => dom
  | some el => { dom with questionText := some { el with text := jsString text } }

/-- The null-guarded back-button block of `showQuestion`: hidden at the root
(empty history), otherwise shown with the `goToPreviousQuestion` handler. -/
def backButtonUpdate (w : World) : World :=
  match w.dom.backBtn with
  | none => w
  | some el =>
    if w.state.answerHistory.isEmpty then
      { w with dom := { w.dom with backBtn := some { el with display := "none" } } }
    else
      { w with
          dom := { w.dom with backBtn := some { el with display := "block" } }
          onBack := true }

/-- The guarded `yesBtn.onclick` / `noBtn.onclick` assignments of
`showQuestion`; the installed closures capture the displayed node. -/
def wireAnswerButtons (node : Node) (w : World) : World :=
  if w.dom.yesBtn.isSome && w.dom.noBtn.isSome then
    { w with onYes := some node, onNo := some node }
  else w

/-- `showAction(node)`: persist the result payload and the final history, and
redirect to the result page. -/
def showAction (node : Node) (w : World) : Bool × World :=
  let w := { w with storage :=
    { w.storage with result := some (stringifyResult node.title node.content) } }
  let w := { w with storage :=
    { w.storage with answerHistory := some (encodeHistory w.state.answerHistory) } }
  (false, { w with redirect := some "result.html" })

/-- `showQuestion(questionId)`: look the node up (a missing node only logs
and returns), dispatch terminal ids to `showAction`, otherwise render the
question: the guarded display updates, the `currentQuestion` assignment, the
unguarded `updateProgress` (which can throw), the back button, and the
answer handlers.  A `questionId` of `undefined` whose coerced key does
resolve would throw at `questionId.startsWith`. -/
def showQuestion (questionId : Option String) (w : World) : Bool × World :=
  match List.lookup (jsString questionId) w.tree with
  | none => (false, w)
  | some node =>
    match questionId with
    | none => (true, w)
    | some qid =>
      if startsWithJs qid "action_" then showAction node w
      else
        let w := { w with
          dom := questionDomUpdates node.text w.dom
          state := { w.state with currentQuestion := some qid } }
        match updateProgress node.step w.dom with
        | (true, dom2) => (true, { w with dom := dom2 })
        | (false, dom2) =>
          let w := { w with dom := dom2 }
          let w := backButtonUpdate w
          let w := wireAnswerButtons node w
          (false, w)

/-- `handleAnswer(answer, node)`: pick the branch, append to the history,
persist history and next id (an `undefined` next id is stored as the string
`"undefined"` by `setItem`'s coercion), and advance only when the next id is
truthy. -/
def handleAnswer (answer : String) (node : Node) (w : World) : Bool × World :=
  let nextId := if answer == "yes" then node.yes else node.no
  let w := { w with state :=
    { w.state with answerHistory := w.state.answerHistory ++ [HistoryEntry.mk node.text answer] } }
  let w := { w with storage :=
    { w.storage with
        answerHistory := some (encodeHistory w.state.answerHistory)
        currentQuestion := some (jsString nextId) } }
  if truthy nextId then showQuestion nextId w else (false, w)

/-- Pressing the yes button: invoke the installed `onclick` closure (a no-op
when no handler has been wired). -/
def clickYes (w : World) : Bool × World :=
  match w.onYes with
  | some node => handleAnswer "yes" node w
  | none => (false, w)

/-- The replay loop of `goToPreviousQuestion` (lines 341-346): walk the
remaining history from the root, following each recorded answer.  Each
iteration reads `previousNode.yes` / `previousNode.no`; when `previousNode`
is `undefined` (its id did not resolve) that property access throws,
modelled as `Except.error`. -/
def replayLoopJs (tree : Tree) : Option Node → Option String → List HistoryEntry →
    Except Unit (Option String)
  | _, pid, [] => Except.ok pid
  | none, _, _ :: _ => Except.error ()
  | some n, _, e :: rest =>
    let nextId := if e.answer == "yes" then n.yes else n.no
    replayLoopJs tree (List.lookup (jsString nextId) tree) nextId rest

/-- The replay of `goToPreviousQuestion` starting from the defaults
`previousQuestionId = 'q1'`, `previousNode = decisionTree['q1']` (an empty
remaining history skips the loop and keeps the root, exactly as the code's
surrounding `if` does). -/
def replayFromRoot (tree : Tree) (h : List HistoryEntry) : Except Unit (Option String) :=
  replayLoopJs tree (List.lookup "q1" tree) (some "q1") h

/-- `goToPreviousQuestion()`: no-op on empty history; otherwise pop the last
answer, recompute the position by replaying the truncated history from the
root, persist, and re-render.  A throw inside the replay loop propagates
with the pop already applied but nothing else updated. -/
def goToPreviousQuestion (w : World) : Bool × World :=
  if w.state.answerHistory.isEmpty then (false, w)
  else
    let hist := w.state.answerHistory.dropLast
    let w := { w with state := { w.state with answerHistory := hist } }
    match replayFromRoot w.tree hist with
    | Except.error _ => (true, w)
    | Except.ok pid =>
      let w := { w with state := { w.state with currentQuestion := pid } }
      let w := { w with storage :=
        { w.storage with
            answerHistory := some (encodeHistory hist)
            currentQuestion := some (jsString pid) } }
      showQuestion pid w

/-- Pressing the back button `n` times in a row (an uncaught exception in one
click handler does not stop later clicks, so iteration continues on the
world reached at the throw). -/
def goBackIter : Nat → World → World
  | 0, w => w
  | Nat.succ m, w => goBackIter m (goToPreviousQuestion w).2

/-- The persistence writes of `handleAnswer` (lines 315-316), the spec's
`saveAnswer(history, nextNodeId)`. -/
def saveAnswer (h : List HistoryEntry) (id : String) (w : World) : World :=
  { w with storage :=
    { w.storage with
        answerHistory := some (encodeHistory h)
        currentQuestion := some id } }

/-- The JSON payload delivered by `response.json()`: a keyed object, `null`,
or a non-object value (string/number/boolean). -/
inductive JsonPayload
  | objectVal (t : Tree)
  | nullValue
  | nonObject
deriving DecidableEq

/-- The outcome of `fetch('decision-tree.json')` followed by
`response.json()`. -/
inductive FetchOutcome
  | transportError
  | httpNotOk (status : Nat)
  | bodyNotJson
  | body (p : JsonPayload)
deriving DecidableEq

/-- Whether the tree load fails: transport error, `!response.ok`, a body that
is not JSON, or a payload that is not a non-null keyed object (`null` or
`typeof !== 'object'`). -/
def treeLoadFails : FetchOutcome → Bool
  | FetchOutcome.body (JsonPayload.objectVal _) => false
  | _ => true

/-- `clearDecisionTreeCache()`: delegates to `clearAllYarukiCache`. -/
def clearDecisionTreeCache (w : World) : World :=
  clearAllYarukiCache w

/-- The `catch` handler of `loadDecisionTree`: clear all cache and show the
error message if the question text element exists. -/
def loadTreeCatch (w : World) : World :=
  let w := clearDecisionTreeCache w
  match w.dom.questionText with
  | none => w
  | some el =>
    { w with dom := { w.dom with questionText := some { el with text :=
        "エラー: データの読み込みに失敗しました。キャッシュをクリアして再度お試しください。" } } }

/-- `loadDecisionTree()`: on a valid object payload install the tree and show
the current question (a throw out of `showQuestion` is caught by the same
`catch`); every failure mode runs the `catch` handler.  On an invalid
payload the raw value briefly sits in `decisionTree` before the validation
throws; since the handler never reads it, the model leaves the previous tree
in place. -/
def loadDecisionTree (fo : FetchOutcome) (w : World) : World :=
  match fo with
  | FetchOutcome.body (JsonPayload.objectVal t) =>
    let w := { w with tree := t }
    match showQuestion w.state.currentQuestion w with
    | (true, w2) => loadTreeCatch w2
    | (false, w2) => w2
  | _ => loadTreeCatch w

/-! ## Specification-side replay definitions (for the replay-determinism
claims, these restate the spec's description of replaying a history prefix
from the root, to be compared with the code's loop) -/

/-- Replaying a history from a node id by following each entry's recorded
yes/no branch, as the spec describes it: fails (`none`) if a node id does
not resolve or a branch is absent. -/
def replaySpec (tree : Tree) : String → List HistoryEntry → Option String
  | id, [] => some id
  | id, e :: rest => do
    let n ← List.lookup id tree
    let nid ← if e.answer == "yes" then n.yes else n.no
    replaySpec tree nid rest

/-- Every node id replayed from `id` through the history resolves in the
tree, and every followed branch is present (`true` also requires the final
id to resolve). -/
def replayResolves (tree : Tree) : String → List HistoryEntry → Bool
  | id, [] => (List.lookup id tree).isSome
  | id, e :: rest =>
    match List.lookup id tree with
    | none => false
    | some n =>
      match (if e.answer == "yes" then n.yes else n.no) with
      | none => false
      | some nid => replayResolves tree nid rest

/-- A well-formed tree: every present `yes`/`no` target of every node
resolves to an existing node id. -/
def branchOk (tree : Tree) : Option String → Bool
  | none => true
  | some nid => (List.lookup nid tree).isSome

/-- Well-formedness of the Decision Tree Store (spec §3 invariant). -/
def wellFormedTree (tree : Tree) : Bool :=
  tree.all (fun p => branchOk tree p.2.yes && branchOk tree p.2.no)

/-! ## Concrete fixtures -/

/-- Scenario B node `q1`. -/
def nodeQ1 : Node := { step := some 1, text := some "T1", yes := some "q2", no := some "action_x" }

/-- Scenario B node `q2`. -/
def nodeQ2 : Node := { step := some 2, text := some "T2", yes := some "action_y", no := some "action_z" }

/-- Scenario B node `action_y`. -/
def nodeAY : Node := { title := some "R", content := some "C" }

/-- The Scenario B tree. -/
def treeB : Tree := [("q1", nodeQ1), ("q2", nodeQ2), ("action_y", nodeAY)]

/-- Root node of the closed, well-formed tree. -/
def nodeW1 : Node := { step := some 1, text := some "T1", yes := some "q2", no := some "action_a" }

/-- A closed, well-formed tree (every branch target present). -/
def treeW : Tree :=
  [("q1", nodeW1),
   ("q2", { step := some 2, text := some "T2", yes := some "action_a", no := some "q1" }),
   ("action_a", { title := some "R", content := some "C" })]

/-- A page with every queried element present (index.html). -/
def fullDom : Dom :=
  { questionContainer := some {}, questionText := some {}, yesBtn := some {},
    noBtn := some {}, backBtn := some {}, progressFill := some {},
    progressText := some {}, resultContainer := some {} }

/-- An empty localStorage. -/
def emptyStorage : Storage :=
  { currentQuestion := none, answerHistory := none, result := none, cacheVersion := none }

/-- The fresh in-memory session. -/
def freshState : State := { currentQuestion := some "q1", answerHistory := [] }

/-- A fresh session on index.html, version tag already stamped, before the
tree arrives. -/
def scenarioBStart : World :=
  { tree := [], storage := { emptyStorage with cacheVersion := some "2" },
    state := freshState, dom := fullDom }

/-- Scenario B after the tree load showed `q1`. -/
def scenarioB1 : World :=
  loadDecisionTree (FetchOutcome.body (JsonPayload.objectVal treeB)) scenarioBStart

/-- Scenario B after answering `q1` with yes. -/
def scenarioB2 : World := (clickYes scenarioB1).2

/-- Scenario B after answering `q2` with yes. -/
def scenarioB3 : World := (clickYes scenarioB2).2

/-- Scenario D storage: stale version tag `"1"`. -/
def scenarioDWorld : World :=
  { tree := [], storage := { emptyStorage with cacheVersion := some "1" }, state := freshState }

/-- A store whose history value is unparseable AND whose version tag is
stale. -/
def c7World : World :=
  { tree := [],
    storage := { currentQuestion := some "q3", answerHistory := some "not json",
                 result := none, cacheVersion := some "1" },
    state := freshState }

/-- Scenario E proper: matching version, unparseable history value. -/
def scenarioEWorld : World :=
  { tree := [],
    storage := { currentQuestion := some "q3", answerHistory := some "not json",
                 result := none, cacheVersion := some "2" },
    state := freshState }

/-- An empty store (no version tag yet). -/
def c4World : World := { tree := [], storage := emptyStorage, state := freshState }

/-- A store with the version tag present, for the round-trip witness. -/
def c4StampedWorld : World :=
  { tree := [], storage := { emptyStorage with cacheVersion := some "2" }, state := freshState }

/-- A tree whose `q1` branches dangle (target `qX` absent). -/
def corruptTree : Tree := [("q1", { text := some "T", yes := some "qX", no := some "qX" })]

/-- A session holding a history that replays through the dangling branch. -/
def corruptWorld : World :=
  { tree := corruptTree, storage := emptyStorage,
    state := { currentQuestion := some "q3",
               answerHistory := [HistoryEntry.mk (some "a") "yes",
                                 HistoryEntry.mk (some "b") "yes",
                                 HistoryEntry.mk (some "c") "yes"] },
    dom := fullDom }

/-- index.html with the progress fill missing and everything else present. -/
def domNoProgressFill : Dom :=
  { questionContainer := some {}, questionText := some {}, yesBtn := some {},
    noBtn := some {}, backBtn := some {}, progressFill := none,
    progressText := some {}, resultContainer := some {} }

/-- A page where ONLY the two progress elements exist. -/
def domOnlyProgress : Dom := { progressFill := some {}, progressText := some {} }

/-- Scenario B tree with the progress fill element missing. -/
def c8WorldMissing : World :=
  { tree := treeB, storage := emptyStorage, state := freshState, dom := domNoProgressFill }

/-- Scenario B tree with only the progress elements present. -/
def c8WorldOnlyProgress : World :=
  { tree := treeB, storage := emptyStorage, state := freshState, dom := domOnlyProgress }

/-- A session one answer deep in the Scenario B tree, positioned at `q2`. -/
def c1Witness : World :=
  { tree := treeB,
    storage := { emptyStorage with cacheVersion := some "2" },
    state := { currentQuestion := some "q2",
               answerHistory := [HistoryEntry.mk (some "T1") "yes"] },
    dom := fullDom }

/-- A session at `q1` of the well-formed tree. -/
def c5Witness : World :=
  { tree := treeW, storage := emptyStorage, state := freshState, dom := fullDom }

/-- A question node with an absent `yes` branch. -/
def nodeNoYes : Node := { text := some "T", yes := none, no := some "x" }

/-! ## Theorems -/

theorem loadTreeCatch_effects (w : World) :
    (loadTreeCatch w).storage = emptyStorage ∧ (loadTreeCatch w).state = freshState := by
  unfold loadTreeCatch clearDecisionTreeCache clearAllYarukiCache
  rcases hq : w.dom.questionText with _ | el <;> simp [hq, emptyStorage, freshState]

/-- C3: a persisted store whose cache-version value differs from the expected
version `"2"` (an absent tag included) makes `loadStateFromStorage` remove
all four persisted keys, return the fresh session (root id `q1`, empty
history), and write the new version tag `"2"` before returning. -/
theorem C3_version_mismatch_resets (w : World)
    (hv : w.storage.cacheVersion ≠ some "2") :
    (loadStateFromStorage w).storage.currentQuestion = none ∧
    (loadStateFromStorage w).storage.answerHistory = none ∧
    (loadStateFromStorage w).storage.result = none ∧
    (loadStateFromStorage w).storage.cacheVersion = some "2" ∧
    (loadStateFromStorage w).state.currentQuestion = some "q1" ∧
    (loadStateFromStorage w).state.answerHistory = [] := by
  have hv2 : w.storage.cacheVersion ≠ some CACHE_VERSION := by
    simpa [CACHE_VERSION] using hv
  unfold loadStateFromStorage
  rw [if_pos hv2]
  simp [clearAllYarukiCache, CACHE_VERSION]

/-- Witness for C3 at Scenario D (stored tag `"1"`, expected `"2"`). -/
theorem C3_version_mismatch_resets_witness :
    scenarioDWorld.storage.cacheVersion = some "1" ∧
    (loadStateFromStorage scenarioDWorld).storage.cacheVersion = some "2" ∧
    (loadStateFromStorage scenarioDWorld).state.currentQuestion = some "q1" ∧
    (loadStateFromStorage scenarioDWorld).state.answerHistory = [] ∧
    (loadStateFromStorage scenarioDWorld).storage.currentQuestion = none := by
  have h := C3_version_mismatch_resets scenarioDWorld (by decide)
  exact ⟨by decide, h.2.2.2.1, h.2.2.2.2.1, h.2.2.2.2.2, h.1⟩

/-- C9: every failing tree load (transport error, non-success HTTP status,
unparseable body, or a payload that is not a non-null keyed object) runs the
failure handler, which removes all four persisted keys and resets the
in-memory session to the root with empty history. -/
theorem C9_load_failure_clears_session (fo : FetchOutcome) (w : World)
    (hf : treeLoadFails fo = true) :
    (loadDecisionTree fo w).storage.currentQuestion = none ∧
    (loadDecisionTree fo w).storage.answerHistory = none ∧
    (loadDecisionTree fo w).storage.result = none ∧
    (loadDecisionTree fo w).storage.cacheVersion = none ∧
    (loadDecisionTree fo w).state.currentQuestion = some "q1" ∧
    (loadDecisionTree fo w).state.answerHistory = [] := by
  have key : (loadDecisionTree fo w).storage = emptyStorage ∧
      (loadDecisionTree fo w).state = freshState := by
    cases fo with
    | transportError => exact loadTreeCatch_effects w
    | httpNotOk s => exact loadTreeCatch_effects w
    | bodyNotJson => exact loadTreeCatch_effects w
    | body p =>
      cases p with
      | objectVal t => simp [treeLoadFails] at hf
      | nullValue => exact loadTreeCatch_effects w
      | nonObject => exact loadTreeCatch_effects w
  rw [key.1, key.2]
  exact ⟨rfl, rfl, rfl, rfl, rfl, rfl⟩

/-- Witness for C9: a transport error over a populated store. -/
theorem C9_load_failure_clears_session_witness :
    treeLoadFails FetchOutcome.transportError = true ∧
    (loadDecisionTree FetchOutcome.transportError c7World).storage.currentQuestion = none ∧
    (loadDecisionTree FetchOutcome.transportError c7World).storage.cacheVersion = none ∧
    (loadDecisionTree FetchOutcome.transportError c7World).state.answerHistory = [] := by
  have h := C9_load_failure_clears_session FetchOutcome.transportError c7World (by decide)
  exact ⟨by decide, h.1, h.2.2.2.1, h.2.2.2.2.2⟩

/-- C10: when the chosen branch is absent or falsy, `handleAnswer` still
appends the entry to the in-memory history, persists that history, and
writes the coerced branch value (the string `"undefined"` for an absent
branch, `""` for an empty one) to the persisted current-question key, while
the in-memory current node id, the DOM, the redirect and the result key stay
unchanged; in a tree without `"undefined"` or `""` keys the persisted
pointer then no longer names a tree node. -/
theorem C10_falsy_branch_frame (answer : String) (node : Node) (w : World)
    (hfalsy : truthy (if answer == "yes" then node.yes else node.no) = false)
    (hu : List.lookup "undefined" w.tree = none)
    (he : List.lookup "" w.tree = none) :
    (handleAnswer answer node w).1 = false ∧
    (handleAnswer answer node w).2.state.answerHistory
      = w.state.answerHistory ++ [HistoryEntry.mk node.text answer] ∧
    (handleAnswer answer node w).2.storage.answerHistory
      = some (encodeHistory (w.state.answerHistory ++ [HistoryEntry.mk node.text answer])) ∧
    (handleAnswer answer node w).2.storage.currentQuestion
      = some (jsString (if answer == "yes" then node.yes else node.no)) ∧
    (handleAnswer answer node w).2.state.currentQuestion = w.state.currentQuestion ∧
    (handleAnswer answer node w).2.dom = w.dom ∧
    (handleAnswer answer node w).2.redirect = w.redirect ∧
    (handleAnswer answer node w).2.storage.result = w.storage.result ∧
    List.lookup (jsString (if answer == "yes" then node.yes else node.no)) w.tree = none := by
  have hlast : List.lookup (jsString (if answer == "yes" then node.yes else node.no)) w.tree
      = none := by
    cases hn : (if answer == "yes" then node.yes else node.no) with
    | none => simpa [jsString] using hu
    | some s =>
      rw [hn] at hfalsy
      have : s = "" := by
        by_contra hs
        simp [truthy, hs] at hfalsy
      simpa [jsString, this] using he
  have hfalsy2 : truthy (if answer = "yes" then node.yes else node.no) = false := by
    simpa using hfalsy
  refine ⟨?_, ?_, ?_, ?_, ?_, ?_, ?_, ?_, hlast⟩ <;>
    simp [handleAnswer, hfalsy2]

/-- Witness for C10: answering yes at a node whose `yes` branch is absent. -/
theorem C10_falsy_branch_frame_witness :
    truthy (if ("yes" : String) == "yes" then nodeNoYes.yes else nodeNoYes.no) = false ∧
    (handleAnswer "yes" nodeNoYes c4World).1 = false ∧
    (handleAnswer "yes" nodeNoYes c4World).2.storage.currentQuestion = some "undefined" ∧
    (handleAnswer "yes" nodeNoYes c4World).2.state.currentQuestion = some "q1" ∧
    (handleAnswer "yes" nodeNoYes c4World).2.state.answerHistory
      = [HistoryEntry.mk (some "T") "yes"] := by
  have h := C10_falsy_branch_frame "yes" nodeNoYes c4World (by decide) (by decide) (by decide)
  exact ⟨by decide, h.1, h.2.2.2.1, h.2.2.2.2.1, h.2.1⟩

/-- C2 (Scenario B): with the Scenario B tree loaded into a fresh session,
answering `q1` with yes and then `q2` with yes ends redirected to the result
page with the payload `title R, content C` persisted to the result key, and
with history exactly `T1/yes, T2/yes` both in memory and persisted. -/
theorem C2_scenarioB_result :
    scenarioB3.redirect = some "result.html" ∧
    scenarioB3.storage.result = some (stringifyResult (some "R") (some "C")) ∧
    scenarioB3.state.answerHistory
      = [HistoryEntry.mk (some "T1") "yes", HistoryEntry.mk (some "T2") "yes"] ∧
    scenarioB3.storage.answerHistory
      = some (encodeHistory [HistoryEntry.mk (some "T1") "yes", HistoryEntry.mk (some "T2") "yes"]) := by
  decide

/-- C8 (refuting theorem for the code bug): entering the Question state with
the progress fill element missing throws inside `updateProgress` (first
conjunct), while a page missing every OTHER rendering target does not throw
(second conjunct) — so the unguarded progress elements, and only they,
violate the degrade-to-no-op-render contract. -/
theorem C8_missing_progress_throws :
    (showQuestion (some "q1") c8WorldMissing).1 = true ∧
    (showQuestion (some "q1") c8WorldOnlyProgress).1 = false := by
  decide

/-- Counterexample to C4 as stated: over an empty store (no cache-version
tag yet), `saveAnswer` followed by `loadStateFromStorage` does NOT round-trip
— the version mismatch wipes the store and returns the root instead of the
saved id `q2`. -/
theorem C4_counterexample :
    (loadStateFromStorage (saveAnswer [] "q2" c4World)).state.currentQuestion = some "q1" ∧
    ¬ (loadStateFromStorage (saveAnswer [] "q2" c4World)).state.currentQuestion = some "q2" := by
  decide

theorem toList_append (s t : String) : (s ++ t).toList = s.toList ++ t.toList := by
  simp [String.toList]

theorem mk_toList (s : String) : String.mk s.toList = s := by
  cases s; rfl

theorem matchLeading_append (p l : List Char) : matchLeading p (p ++ l) = some l := by
  induction p with
  | nil => rfl
  | cons a ps ih => simp [matchLeading, ih]

theorem scanString_append (q rest : List Char) (hq : ∀ c ∈ q, ¬c = '"') :
    scanString (q ++ '"' :: rest) = some (q, rest) := by
  induction q with
  | nil => simp [scanString]
  | cons c cs ih =>
    have hc : ¬c = '"' := hq c (by simp)
    have ih2 := ih (fun d hd => hq d (by simp [hd]))
    simp [scanString, hc, ih2]

theorem goodChars_no_quote {q : String} (h : goodChars q = true) :
    ∀ c ∈ q.toList, ¬c = '"' := by
  intro c hc
  have h2 := List.all_eq_true.mp h c hc
  simp at h2
  exact h2.1.1

theorem quote_toList : ("\"" : String).toList = ['"'] := rfl

theorem parseEntry_encode (e : HistoryEntry) (he : wellFormedEntry e = true)
    (rest : List Char) :
    parseEntry ((encodeEntry e).toList ++ rest) = some (e, rest) := by
  rcases e with ⟨q?, a⟩
  cases q? with
  | none => simp [wellFormedEntry] at he
  | some q =>
    have hq : goodChars q = true := by
      have := he
      simp [wellFormedEntry] at this
      exact this.1
    have ha : goodChars a = true := by
      have := he
      simp [wellFormedEntry] at this
      exact this.2
    have hdec : (encodeEntry (HistoryEntry.mk (some q) a)).toList ++ rest
        = entryPre1.toList ++ (q.toList ++ '"' ::
            (entryMid.toList ++ (a.toList ++ '"' :: (entryPost.toList ++ rest)))) := by
      simp [encodeEntry, toList_append, quote_toList]
    rw [hdec]
    simp only [parseEntry, matchLeading_append,
      scanString_append q.toList _ (goodChars_no_quote hq),
      scanString_append a.toList _ (goodChars_no_quote ha), mk_toList]

theorem entryPre1_len : entryPre1.length = 13 := rfl

theorem entryPre2_len : entryPre2.length = 11 := rfl

theorem entryPost_len : entryPost.length = 1 := rfl

theorem encodeEntry_length (e : HistoryEntry) : 2 ≤ (encodeEntry e).toList.length := by
  rcases e with ⟨q?, a⟩
  cases q? with
  | none =>
    simp [encodeEntry, toList_append, List.length_append, entryPre2_len, entryPost_len]
    omega
  | some q =>
    simp [encodeEntry, toList_append, List.length_append, entryPre1_len, entryPost_len]
    omega

theorem encodeEntries_nil_toList :
    (encodeEntries ([] : List HistoryEntry) ++ "]").toList = [']'] := rfl

theorem encodeEntries_one_toList (e : HistoryEntry) :
    (encodeEntries [e] ++ "]").toList = (encodeEntry e).toList ++ [']'] := by
  simp [encodeEntries, toList_append]

theorem encodeEntries_cons2_toList (e e2 : HistoryEntry) (t2 : List HistoryEntry) :
    (encodeEntries (e :: e2 :: t2) ++ "]").toList
      = (encodeEntry e).toList ++ (',' :: (encodeEntries (e2 :: t2) ++ "]").toList) := by
  have hcomma : ("," : String).toList = [','] := rfl
  simp [encodeEntries, toList_append, hcomma]

theorem encodeEntry_append_ne (e : HistoryEntry) (x : List Char) :
    ¬((encodeEntry e).toList ++ x = [']']) := by
  intro hcontra
  have hlen := congrArg List.length hcontra
  rw [List.length_append] at hlen
  have h2 := encodeEntry_length e
  simp only [List.length_cons, List.length_nil] at hlen
  omega

theorem parseEntriesFuel_encode (h : List HistoryEntry) :
    ∀ f : Nat, wellFormedHistory h = true → h.length < f →
    parseEntriesFuel f ((encodeEntries h ++ "]").toList) = some h := by
  induction h with
  | nil =>
    intro f _ hf
    obtain ⟨f2, rfl⟩ : ∃ f2, f = f2 + 1 := by
      cases f with
      | zero => omega
      | succ f2 => exact ⟨f2, rfl⟩
    rw [encodeEntries_nil_toList]
    simp [parseEntriesFuel]
  | cons e t ih =>
    intro f hwf hlen
    obtain ⟨f2, rfl⟩ : ∃ f2, f = f2 + 1 := by
      cases f with
      | zero => omega
      | succ f2 => exact ⟨f2, rfl⟩
    have hwe : wellFormedEntry e = true := by
      have := hwf
      simp [wellFormedHistory] at this
      exact this.1
    cases t with
    | nil =>
      rw [encodeEntries_one_toList]
      unfold parseEntriesFuel
      rw [if_neg (encodeEntry_append_ne e [']']), parseEntry_encode e hwe]
      simp
    | cons e2 t2 =>
      have hwt : wellFormedHistory (e2 :: t2) = true := by
        have h3 := hwf
        simp [wellFormedHistory] at h3 ⊢
        exact ⟨h3.2.1, h3.2.2⟩
      rw [encodeEntries_cons2_toList]
      unfold parseEntriesFuel
      rw [if_neg (encodeEntry_append_ne e _), parseEntry_encode e hwe]
      have hrec := ih f2 hwt (by simp at hlen ⊢; omega)
      simp [toList_append, String.toList] at hrec
      simp [hrec]

theorem encodeHistory_toList (h : List HistoryEntry) :
    (encodeHistory h).toList = '[' :: (encodeEntries h ++ "]").toList := by
  have hopen : ("[" : String).toList = ['['] := rfl
  simp [encodeHistory, toList_append, hopen]

theorem encodeEntries_len_ge (h : List HistoryEntry) :
    h.length ≤ (encodeEntries h ++ "]").toList.length := by
  induction h with
  | nil => rw [encodeEntries_nil_toList]; simp
  | cons e t ih =>
    cases t with
    | nil =>
      rw [encodeEntries_one_toList]
      have h2 := encodeEntry_length e
      simp [List.length_append]
    | cons e2 t2 =>
      rw [encodeEntries_cons2_toList]
      have h2 := encodeEntry_length e
      simp [List.length_append] at ih ⊢
      omega

theorem historyRoundtrip (h : List HistoryEntry) (hwf : wellFormedHistory h = true) :
    parseHistory (encodeHistory h) = some h := by
  unfold parseHistory
  rw [encodeHistory_toList]
  exact parseEntriesFuel_encode h _ hwf
    (Nat.lt_succ_of_le (encodeEntries_len_ge h))

theorem encodeHistory_ne_empty (h : List HistoryEntry) : ¬(encodeHistory h = "") := by
  intro hcontra
  have := congrArg String.toList hcontra
  rw [encodeHistory_toList] at this
  simp at this

/-- C4 (amended): provided the persisted cache-version already equals the
expected `"2"` and the saved node id is non-empty, `saveAnswer(h, id)`
followed by `loadStateFromStorage` yields an in-memory session whose history
equals `h` and whose current node id equals `id`, for every history whose
serialisation is literal (question present, no JSON-escaped characters). -/
theorem C4_roundtrip_amended (w : World) (h : List HistoryEntry) (id : String)
    (hv : w.storage.cacheVersion = some "2")
    (hwf : wellFormedHistory h = true)
    (hid : ¬id = "") :
    (loadStateFromStorage (saveAnswer h id w)).state.answerHistory = h ∧
    (loadStateFromStorage (saveAnswer h id w)).state.currentQuestion = some id := by
  have h1 : truthy (some id) = true := by simp [truthy, hid]
  have h2 : truthy (some (encodeHistory h)) = true := by
    simp [truthy]
    exact encodeHistory_ne_empty h
  have h3 := historyRoundtrip h hwf
  unfold saveAnswer loadStateFromStorage
  simp [hv, CACHE_VERSION, h1, h2, jsString, h3]

/-- Witness for the amended C4: one-entry history, id `q2`, stamped store. -/
theorem C4_roundtrip_amended_witness :
    c4StampedWorld.storage.cacheVersion = some "2" ∧
    wellFormedHistory [HistoryEntry.mk (some "T1") "yes"] = true ∧
    (loadStateFromStorage
        (saveAnswer [HistoryEntry.mk (some "T1") "yes"] "q2" c4StampedWorld)).state.answerHistory
      = [HistoryEntry.mk (some "T1") "yes"] ∧
    (loadStateFromStorage
        (saveAnswer [HistoryEntry.mk (some "T1") "yes"] "q2" c4StampedWorld)).state.currentQuestion
      = some "q2" := by
  have hh := C4_roundtrip_amended c4StampedWorld [HistoryEntry.mk (some "T1") "yes"] "q2"
    (by decide) (by decide) (by decide)
  exact ⟨by decide, by decide, hh.1, hh.2⟩

/-- C7 (amended): over a store whose cache-version equals the expected `"2"`
and which does not trigger the result-without-question reset, a present,
non-empty answer-history value that is not syntactically valid JSON — so
`JSON.parse` throws, the code's only reset path — makes
`loadStateFromStorage` return an empty history while leaving the whole
persisted store (the current-question key included) unchanged; the
in-memory current node id becomes the stored current-question value when
that is truthy and is left unchanged otherwise.  A value that parses as
JSON but not to the expected structure (e.g. `[1]`) is assigned to the
history as-is by the code and lies outside this claim; the final
`parseHistory` hypothesis keeps the statement inside the region where the
modelled parse agrees with `JSON.parse` (invalid JSON that happens to match
the canonical grammar — e.g. a raw control character inside a string
literal — is likewise excluded). -/
theorem C7_parse_failure_amended (w : World) (s : String)
    (hv : w.storage.cacheVersion = some "2")
    (hnc : (truthy w.storage.result && !truthy w.storage.currentQuestion) = false)
    (hs : w.storage.answerHistory = some s)
    (hne : ¬s = "")
    (_hj : validJson s = false)
    (hp : parseHistory s = none) :
    (loadStateFromStorage w).storage = w.storage ∧
    (loadStateFromStorage w).state.answerHistory = [] ∧
    (loadStateFromStorage w).state.currentQuestion
      = (if truthy w.storage.currentQuestion then w.storage.currentQuestion
         else w.state.currentQuestion) := by
  have hts : truthy (some s) = true := by simp [truthy, hne]
  unfold loadStateFromStorage
  rw [if_neg (by simp [hv, CACHE_VERSION])]
  rw [if_neg (by simp [hnc])]
  by_cases hq : truthy w.storage.currentQuestion = true
  · simp [hq, hs, hts, jsString, hp]
  · simp [Bool.not_eq_true] at hq
    simp [hq, hs, hts, jsString, hp]

/-- Witness for the amended C7 at Scenario E (stored history `not json`,
which is not valid JSON, so `JSON.parse` throws on it). -/
theorem C7_parse_failure_amended_witness :
    scenarioEWorld.storage.answerHistory = some "not json" ∧
    validJson "not json" = false ∧
    (loadStateFromStorage scenarioEWorld).storage = scenarioEWorld.storage ∧
    (loadStateFromStorage scenarioEWorld).state.answerHistory = [] ∧
    (loadStateFromStorage scenarioEWorld).state.currentQuestion = some "q3" := by
  have hh := C7_parse_failure_amended scenarioEWorld "not json"
    (by decide) (by decide) (by decide) (by decide) (by decide) (by decide)
  exact ⟨by decide, by decide, hh.1, hh.2.1, by
    have h3 := hh.2.2
    simpa using h3⟩

/-- Counterexample to C6 as stated: popping a corrupted three-entry history
whose replayed ids leave the tree makes the replay loop dereference a
missing node — `goToPreviousQuestion` throws instead of never failing. -/
theorem C6_counterexample :
    (goToPreviousQuestion corruptWorld).1 = true ∧
    replayFromRoot corruptWorld.tree corruptWorld.state.answerHistory.dropLast
      = Except.error () :=
  ⟨by decide, rfl⟩

/-- Counterexample to C7 as stated: a store whose history value is present
and unparseable but whose version tag is stale does NOT leave the
current-question key unchanged — `loadStateFromStorage` removes it. -/
theorem C7_counterexample :
    c7World.storage.answerHistory = some "not json" ∧
    parseHistory "not json" = none ∧
    (loadStateFromStorage c7World).storage.currentQuestion = none ∧
    ¬ (loadStateFromStorage c7World).storage.currentQuestion
        = c7World.storage.currentQuestion := by
  decide

theorem lookup_mem {tree : Tree} {a : String} {b : Node}
    (h : List.lookup a tree = some b) : (a, b) ∈ tree := by
  induction tree with
  | nil => simp [List.lookup] at h
  | cons p rest ih =>
    rw [List.lookup] at h
    by_cases he : (a == p.1) = true
    · simp only [he] at h
      have h1 : a = p.1 := by simpa using he
      have h2 : p.2 = b := by simpa using h
      rw [List.mem_cons]
      left
      rw [h1, ← h2]
    · have he2 : (a == p.1) = false := by simpa using he
      simp only [he2] at h
      right
      exact ih h

theorem backButtonUpdate_tree (w : World) : (backButtonUpdate w).tree = w.tree := by
  unfold backButtonUpdate
  rcases hb : w.dom.backBtn with _ | el
  · simp
  · by_cases hh : w.state.answerHistory.isEmpty = true <;> simp [hh]

theorem backButtonUpdate_state (w : World) : (backButtonUpdate w).state = w.state := by
  unfold backButtonUpdate
  rcases hb : w.dom.backBtn with _ | el
  · simp
  · by_cases hh : w.state.answerHistory.isEmpty = true <;> simp [hh]

theorem backButtonUpdate_storage (w : World) : (backButtonUpdate w).storage = w.storage := by
  unfold backButtonUpdate
  rcases hb : w.dom.backBtn with _ | el
  · simp
  · by_cases hh : w.state.answerHistory.isEmpty = true <;> simp [hh]

theorem backButtonUpdate_redirect (w : World) : (backButtonUpdate w).redirect = w.redirect := by
  unfold backButtonUpdate
  rcases hb : w.dom.backBtn with _ | el
  · simp
  · by_cases hh : w.state.answerHistory.isEmpty = true <;> simp [hh]

theorem wireAnswerButtons_tree (node : Node) (w : World) :
    (wireAnswerButtons node w).tree = w.tree := by
  unfold wireAnswerButtons
  by_cases hb : (w.dom.yesBtn.isSome && w.dom.noBtn.isSome) = true <;> simp [hb]

theorem wireAnswerButtons_state (node : Node) (w : World) :
    (wireAnswerButtons node w).state = w.state := by
  unfold wireAnswerButtons
  by_cases hb : (w.dom.yesBtn.isSome && w.dom.noBtn.isSome) = true <;> simp [hb]

theorem wireAnswerButtons_storage (node : Node) (w : World) :
    (wireAnswerButtons node w).storage = w.storage := by
  unfold wireAnswerButtons
  by_cases hb : (w.dom.yesBtn.isSome && w.dom.noBtn.isSome) = true <;> simp [hb]

theorem wireAnswerButtons_redirect (node : Node) (w : World) :
    (wireAnswerButtons node w).redirect = w.redirect := by
  unfold wireAnswerButtons
  by_cases hb : (w.dom.yesBtn.isSome && w.dom.noBtn.isSome) = true <;> simp [hb]

theorem showQuestion_tree (qid : Option String) (w : World) :
    (showQuestion qid w).2.tree = w.tree := by
  unfold showQuestion
  cases hl : List.lookup (jsString qid) w.tree with
  | none => rfl
  | some node =>
    cases qid with
    | none => rfl
    | some q =>
      by_cases ha : startsWithJs q "action_" = true
      · simp [ha, showAction]
      · simp only [ha, Bool.false_eq_true, if_false]
        rcases hup : updateProgress node.step (questionDomUpdates node.text w.dom) with ⟨tf, d2⟩
        cases tf
        · simp [hup, wireAnswerButtons_tree, backButtonUpdate_tree]
        · simp [hup]

theorem showQuestion_history (qid : Option String) (w : World) :
    (showQuestion qid w).2.state.answerHistory = w.state.answerHistory := by
  unfold showQuestion
  cases hl : List.lookup (jsString qid) w.tree with
  | none => rfl
  | some node =>
    cases qid with
    | none => rfl
    | some q =>
      by_cases ha : startsWithJs q "action_" = true
      · simp [ha, showAction]
      · simp only [ha, Bool.false_eq_true, if_false]
        rcases hup : updateProgress node.step (questionDomUpdates node.text w.dom) with ⟨tf, d2⟩
        cases tf
        · simp [hup, wireAnswerButtons_state, backButtonUpdate_state]
        · simp [hup]

theorem showQuestion_storage_current (qid : Option String) (w : World) :
    (showQuestion qid w).2.storage.currentQuestion = w.storage.currentQuestion := by
  unfold showQuestion
  cases hl : List.lookup (jsString qid) w.tree with
  | none => rfl
  | some node =>
    cases qid with
    | none => rfl
    | some q =>
      by_cases ha : startsWithJs q "action_" = true
      · simp [ha, showAction]
      · simp only [ha, Bool.false_eq_true, if_false]
        rcases hup : updateProgress node.step (questionDomUpdates node.text w.dom) with ⟨tf, d2⟩
        cases tf
        · simp [hup, wireAnswerButtons_storage, backButtonUpdate_storage]
        · simp [hup]

theorem showQuestion_current_eq (qid : Option String) (w : World) :
    (showQuestion qid w).2.state.currentQuestion =
      (match List.lookup (jsString qid) w.tree, qid with
        | some _, some q =>
          if startsWithJs q "action_" then w.state.currentQuestion else some q
        | _, _ => w.state.currentQuestion) := by
  unfold showQuestion
  cases hl : List.lookup (jsString qid) w.tree with
  | none => simp [hl]
  | some node =>
    cases qid with
    | none => simp [hl]
    | some q =>
      by_cases ha : startsWithJs q "action_" = true
      · simp [hl, ha, showAction]
      · simp only [hl, ha, Bool.false_eq_true, if_false]
        rcases hup : updateProgress node.step (questionDomUpdates node.text w.dom) with ⟨tf, d2⟩
        cases tf
        · simp [hup, ha, wireAnswerButtons_state, backButtonUpdate_state]
        · simp [hup, ha]

theorem showQuestion_storage_history_eq (qid : Option String) (w : World) :
    (showQuestion qid w).2.storage.answerHistory =
      (match List.lookup (jsString qid) w.tree, qid with
        | some _, some q =>
          if startsWithJs q "action_" then some (encodeHistory w.state.answerHistory)
          else w.storage.answerHistory
        | _, _ => w.storage.answerHistory) := by
  unfold showQuestion
  cases hl : List.lookup (jsString qid) w.tree with
  | none => simp [hl]
  | some node =>
    cases qid with
    | none => simp [hl]
    | some q =>
      by_cases ha : startsWithJs q "action_" = true
      · simp [hl, ha, showAction]
      · simp only [hl, ha, Bool.false_eq_true, if_false]
        rcases hup : updateProgress node.step (questionDomUpdates node.text w.dom) with ⟨tf, d2⟩
        cases tf
        · simp [hup, ha, wireAnswerButtons_storage, backButtonUpdate_storage]
        · simp [hup, ha]

theorem replayLoop_ok (tree : Tree) (h : List HistoryEntry) :
    ∀ id : String, replayResolves tree id h = true →
    replayLoopJs tree (List.lookup id tree) (some id) h
      = Except.ok (replaySpec tree id h) := by
  induction h with
  | nil => intro id _; simp [replayLoopJs, replaySpec]
  | cons e rest ih =>
    intro id hres
    unfold replayResolves at hres
    cases hl : List.lookup id tree with
    | none => simp [hl] at hres
    | some n =>
      simp only [hl] at hres
      cases hb : (if e.answer == "yes" then n.yes else n.no) with
      | none =>
        have hb2 : (if e.answer = "yes" then n.yes else n.no) = none := by
          simpa using hb
        simp [hb, hb2] at hres
      | some nid =>
        have hb2 : (if e.answer = "yes" then n.yes else n.no) = some nid := by
          simpa using hb
        simp only [hb, hb2] at hres
        have := ih nid hres
        by_cases hy : e.answer = "yes"
        · have hb3 : n.yes = some nid := by simpa [hy] using hb2
          simp [replayLoopJs, replaySpec, hl, hy, hb3, jsString, this]
        · have hb3 : n.no = some nid := by simpa [hy] using hb2
          simp [replayLoopJs, replaySpec, hl, hy, hb3, jsString, this]

theorem replayResolves_some (tree : Tree) (h : List HistoryEntry) :
    ∀ id : String, replayResolves tree id h = true →
    ∃ m, replaySpec tree id h = some m ∧ (List.lookup m tree).isSome = true := by
  induction h with
  | nil =>
    intro id hres
    exact ⟨id, rfl, by simpa [replayResolves] using hres⟩
  | cons e rest ih =>
    intro id hres
    unfold replayResolves at hres
    cases hl : List.lookup id tree with
    | none => simp [hl] at hres
    | some n =>
      simp only [hl] at hres
      cases hb : (if e.answer == "yes" then n.yes else n.no) with
      | none =>
        have hb2 : (if e.answer = "yes" then n.yes else n.no) = none := by
          simpa using hb
        simp [hb, hb2] at hres
      | some nid =>
        have hb2 : (if e.answer = "yes" then n.yes else n.no) = some nid := by
          simpa using hb
        simp only [hb, hb2] at hres
        obtain ⟨m, hm, hmem⟩ := ih nid hres
        refine ⟨m, ?_, hmem⟩
        by_cases hy : e.answer = "yes"
        · have hb3 : n.yes = some nid := by simpa [hy] using hb2
          simp [replaySpec, hl, hy, hb3, hm]
        · have hb3 : n.no = some nid := by simpa [hy] using hb2
          simp [replaySpec, hl, hy, hb3, hm]

theorem replayResolves_append_left (tree : Tree) (a b : List HistoryEntry) :
    ∀ id : String, replayResolves tree id (a ++ b) = true →
    replayResolves tree id a = true := by
  induction a with
  | nil =>
    intro id hres
    cases b with
    | nil => simpa using hres
    | cons e rest =>
      simp only [List.nil_append] at hres
      unfold replayResolves at hres ⊢
      cases hl : List.lookup id tree with
      | none => simp [hl] at hres
      | some n => simp [hl]
  | cons e a2 ih =>
    intro id hres
    simp only [List.cons_append] at hres
    unfold replayResolves at hres ⊢
    cases hl : List.lookup id tree with
    | none => simp [hl] at hres
    | some n =>
      simp only [hl] at hres ⊢
      cases hb : (if e.answer == "yes" then n.yes else n.no) with
      | none =>
        have hb2 : (if e.answer = "yes" then n.yes else n.no) = none := by
          simpa using hb
        simp [hb, hb2] at hres
      | some nid =>
        have hb2 : (if e.answer = "yes" then n.yes else n.no) = some nid := by
          simpa using hb
        simp only [hb, hb2] at hres ⊢
        exact ih nid hres

theorem replayResolves_take (tree : Tree) (h : List HistoryEntry) (k : Nat)
    (id : String) (hres : replayResolves tree id h = true) :
    replayResolves tree id (h.take k) = true := by
  have := replayResolves_append_left tree (h.take k) (h.drop k) id
  rw [List.take_append_drop] at this
  exact this hres

theorem goToPrev_step (w : World) (hne : ¬w.state.answerHistory = [])
    (hres : replayResolves w.tree "q1" w.state.answerHistory.dropLast = true) :
    (goToPreviousQuestion w).2.tree = w.tree ∧
    (goToPreviousQuestion w).2.state.answerHistory = w.state.answerHistory.dropLast ∧
    (goToPreviousQuestion w).2.state.currentQuestion
      = replaySpec w.tree "q1" w.state.answerHistory.dropLast ∧
    (goToPreviousQuestion w).2.storage.currentQuestion
      = some (jsString (replaySpec w.tree "q1" w.state.answerHistory.dropLast)) ∧
    (goToPreviousQuestion w).2.storage.answerHistory
      = some (encodeHistory w.state.answerHistory.dropLast) ∧
    replayFromRoot w.tree w.state.answerHistory.dropLast
      = Except.ok (replaySpec w.tree "q1" w.state.answerHistory.dropLast) := by
  have hrr : replayFromRoot w.tree w.state.answerHistory.dropLast
      = Except.ok (replaySpec w.tree "q1" w.state.answerHistory.dropLast) :=
    replayLoop_ok w.tree _ "q1" hres
  obtain ⟨m, hm, hmem⟩ := replayResolves_some w.tree _ "q1" hres
  have hcond : w.state.answerHistory.isEmpty = false := by
    rcases hx : w.state.answerHistory with _ | ⟨a, l⟩
    · exact absurd hx hne
    · rfl
  obtain ⟨node2, hn2⟩ : ∃ node2, List.lookup m w.tree = some node2 := by
    cases hn : List.lookup m w.tree with
    | none => rw [hn] at hmem; simp at hmem
    | some node2 => exact ⟨node2, rfl⟩
  simp only [goToPreviousQuestion, hcond, Bool.false_eq_true, if_false, hrr]
  refine ⟨?_, ?_, ?_, ?_, ?_, trivial⟩
  · rw [showQuestion_tree]
  · rw [showQuestion_history]
  · rw [showQuestion_current_eq]
    simp only [hm, jsString, hn2]
    by_cases ha : startsWithJs m "action_" = true <;> simp [ha, hm]
  · rw [showQuestion_storage_current]
  · rw [showQuestion_storage_history_eq]
    simp only [hm, jsString, hn2]
    by_cases ha : startsWithJs m "action_" = true <;> simp [ha]

/-- C6 (amended): provided every node id replayed from the truncated history
resolves in the tree, the replay performed by `goToPreviousQuestion` never
fails (`replayFromRoot` returns `ok`, never dereferencing a missing node)
and always produces a position consistent with the truncated history: the
new in-memory history is the truncated history, the new current node id is
its replay from the root, and the persisted history and current-question
mirror them.  For histories whose replayed ids leave the tree — edited or
corrupted histories — the loop instead dereferences a missing node and
throws (see the counterexample). -/
theorem C6_replay_consistency_amended (w : World) (H : List HistoryEntry)
    (hH : w.state.answerHistory = H) (hne : ¬H = [])
    (hres : replayResolves w.tree "q1" H.dropLast = true) :
    replayFromRoot w.tree H.dropLast
      = Except.ok (replaySpec w.tree "q1" H.dropLast) ∧
    (goToPreviousQuestion w).2.state.answerHistory = H.dropLast ∧
    (goToPreviousQuestion w).2.state.currentQuestion
      = replaySpec w.tree "q1" H.dropLast ∧
    (goToPreviousQuestion w).2.storage.answerHistory
      = some (encodeHistory H.dropLast) ∧
    (goToPreviousQuestion w).2.storage.currentQuestion
      = some (jsString (replaySpec w.tree "q1" H.dropLast)) := by
  subst hH
  have hs := goToPrev_step w hne hres
  exact ⟨hs.2.2.2.2.2, hs.2.1, hs.2.2.1, hs.2.2.2.2.1, hs.2.2.2.1⟩

/-- Witness for the amended C6: going back from one answer deep in the
Scenario B tree replays cleanly to the root. -/
theorem C6_replay_consistency_amended_witness :
    replayFromRoot treeB [] = Except.ok (some "q1") ∧
    (goToPreviousQuestion c1Witness).2.state.answerHistory = [] ∧
    (goToPreviousQuestion c1Witness).2.state.currentQuestion = some "q1" ∧
    (goToPreviousQuestion c1Witness).2.storage.currentQuestion = some "q1" := by
  have hh := C6_replay_consistency_amended c1Witness
    [HistoryEntry.mk (some "T1") "yes"] rfl (by decide) (by decide)
  exact ⟨hh.1, hh.2.1, hh.2.2.1, hh.2.2.2.2⟩

theorem goBackIter_spec (j : Nat) :
    ∀ w : World, j ≤ w.state.answerHistory.length →
    replayResolves w.tree "q1" w.state.answerHistory = true →
    w.state.currentQuestion = replaySpec w.tree "q1" w.state.answerHistory →
    (goBackIter j w).tree = w.tree ∧
    (goBackIter j w).state.answerHistory
      = w.state.answerHistory.take (w.state.answerHistory.length - j) ∧
    (goBackIter j w).state.currentQuestion
      = replaySpec w.tree "q1"
          (w.state.answerHistory.take (w.state.answerHistory.length - j)) := by
  induction j with
  | zero =>
    intro w _ _ hcur
    simp [goBackIter, List.take_length, hcur]
  | succ m ih =>
    intro w hj hres hcur
    have hne : ¬w.state.answerHistory = [] := by
      intro hnil
      rw [hnil] at hj
      simp at hj
    have hresd : replayResolves w.tree "q1" w.state.answerHistory.dropLast = true := by
      rw [List.dropLast_eq_take]
      exact replayResolves_take _ _ _ _ hres
    have hstep := goToPrev_step w hne hresd
    have hlen2 : (goToPreviousQuestion w).2.state.answerHistory.length
        = w.state.answerHistory.length - 1 := by
      rw [hstep.2.1, List.length_dropLast]
    have ihh := ih (goToPreviousQuestion w).2
      (by rw [hlen2]; omega)
      (by rw [hstep.1, hstep.2.1]; exact hresd)
      (by rw [hstep.2.2.1, hstep.1, hstep.2.1])
    have htake : (goToPreviousQuestion w).2.state.answerHistory.take
          ((goToPreviousQuestion w).2.state.answerHistory.length - m)
        = w.state.answerHistory.take (w.state.answerHistory.length - (m + 1)) := by
      rw [hstep.2.1, List.length_dropLast, List.dropLast_eq_take, List.take_take]
      congr 1
      omega
    refine ⟨?_, ?_, ?_⟩
    · show (goBackIter m (goToPreviousQuestion w).2).tree = w.tree
      rw [ihh.1, hstep.1]
    · show (goBackIter m (goToPreviousQuestion w).2).state.answerHistory
        = w.state.answerHistory.take (w.state.answerHistory.length - (m + 1))
      rw [ihh.2.1, htake]
    · show (goBackIter m (goToPreviousQuestion w).2).state.currentQuestion
        = replaySpec w.tree "q1"
            (w.state.answerHistory.take (w.state.answerHistory.length - (m + 1)))
      rw [ihh.2.2, hstep.1, htake]

/-- C1: over a tree in which every node id replayed through history `H`
resolves, starting from the session holding `H` (its current node id being
the one `H` determines whenever no `goBack` is applied at all, i.e. `k = n`),
applying `goToPreviousQuestion` `n - k` times yields exactly the current
node id obtained by replaying the prefix `H[0..k)` from the root `q1`
following each recorded yes/no branch — and the remaining history is that
prefix. -/
theorem C1_replay_determinism (w : World) (H : List HistoryEntry) (k : Nat)
    (hH : w.state.answerHistory = H) (hk : k ≤ H.length)
    (hres : replayResolves w.tree "q1" H = true)
    (hstart : w.state.currentQuestion = replaySpec w.tree "q1" H ∨ k < H.length) :
    (goBackIter (H.length - k) w).state.currentQuestion
      = replaySpec w.tree "q1" (H.take k) ∧
    (goBackIter (H.length - k) w).state.answerHistory = H.take k := by
  subst hH
  rcases hstart with hcur | hlt
  · have hh := goBackIter_spec (w.state.answerHistory.length - k) w (by omega) hres hcur
    have hx : w.state.answerHistory.length - (w.state.answerHistory.length - k) = k := by
      omega
    rw [hx] at hh
    exact ⟨hh.2.2, hh.2.1⟩
  · have hne : ¬w.state.answerHistory = [] := by
      intro h0
      rw [h0] at hlt
      simp at hlt
    have hresd : replayResolves w.tree "q1" w.state.answerHistory.dropLast = true := by
      rw [List.dropLast_eq_take]
      exact replayResolves_take _ _ _ _ hres
    have hstep := goToPrev_step w hne hresd
    have hlen2 : (goToPreviousQuestion w).2.state.answerHistory.length
        = w.state.answerHistory.length - 1 := by
      rw [hstep.2.1, List.length_dropLast]
    obtain ⟨m, hm⟩ : ∃ m, w.state.answerHistory.length - k = m + 1 :=
      ⟨w.state.answerHistory.length - k - 1, by omega⟩
    rw [hm]
    have ihh := goBackIter_spec m (goToPreviousQuestion w).2
      (by rw [hlen2]; omega)
      (by rw [hstep.1, hstep.2.1]; exact hresd)
      (by rw [hstep.2.2.1, hstep.1, hstep.2.1])
    have htake : (goToPreviousQuestion w).2.state.answerHistory.take
          ((goToPreviousQuestion w).2.state.answerHistory.length - m)
        = w.state.answerHistory.take k := by
      rw [hstep.2.1, List.length_dropLast, List.dropLast_eq_take, List.take_take]
      congr 1
      omega
    constructor
    · show (goBackIter m (goToPreviousQuestion w).2).state.currentQuestion
        = replaySpec w.tree "q1" (w.state.answerHistory.take k)
      rw [ihh.2.2, hstep.1, htake]
    · show (goBackIter m (goToPreviousQuestion w).2).state.answerHistory
        = w.state.answerHistory.take k
      rw [ihh.2.1, htake]

/-- Witness for C1: one answer deep in the Scenario B tree, truncating to
the empty prefix (`k = 0`) by one `goBack`. -/
theorem C1_replay_determinism_witness :
    (goBackIter 1 c1Witness).state.currentQuestion = replaySpec treeB "q1" [] ∧
    (goBackIter 1 c1Witness).state.answerHistory = [] := by
  have hh := C1_replay_determinism c1Witness [HistoryEntry.mk (some "T1") "yes"] 0
    rfl (by decide) (by decide) (Or.inr (by decide))
  exact ⟨hh.1, hh.2⟩

/-- C5: over a well-formed tree (every present yes/no target resolves),
answering from any node of the tree with either choice yields a state whose
current node id is still a valid key of the tree — whether the transition
advances to a question, reaches a result, or is suppressed by a missing
branch. -/
theorem C5_no_dangling_transitions (w : World) (id : String) (node : Node)
    (answer : String)
    (hwf : wellFormedTree w.tree = true)
    (hl : List.lookup id w.tree = some node)
    (hc : w.state.currentQuestion = some id) :
    ∃ v, (handleAnswer answer node w).2.state.currentQuestion = some v ∧
      (List.lookup v w.tree).isSome = true := by
  have hmem : (id, node) ∈ w.tree := lookup_mem hl
  have hok := List.all_eq_true.mp hwf (id, node) hmem
  have hbo : branchOk w.tree node.yes = true ∧ branchOk w.tree node.no = true := by
    simpa [Bool.and_eq_true] using hok
  simp only [handleAnswer]
  by_cases ht : truthy (if answer == "yes" then node.yes else node.no) = true
  · obtain ⟨s, hs⟩ : ∃ s, (if answer == "yes" then node.yes else node.no) = some s := by
      cases hv : (if answer == "yes" then node.yes else node.no) with
      | none =>
        rw [hv] at ht
        simp [truthy] at ht
      | some s => exact ⟨s, rfl⟩
    have hsome : (List.lookup s w.tree).isSome = true := by
      by_cases hy : (answer == "yes") = true
      · have h5 : node.yes = some s := by rw [← hs, if_pos hy]
        have h6 := hbo.1
        rw [h5] at h6
        simpa [branchOk] using h6
      · have h5 : node.no = some s := by rw [← hs, if_neg hy]
        have h6 := hbo.2
        rw [h5] at h6
        simpa [branchOk] using h6
    obtain ⟨node2, hn2⟩ : ∃ node2, List.lookup s w.tree = some node2 := by
      cases hn : List.lookup s w.tree with
      | none =>
        rw [hn] at hsome
        simp at hsome
      | some node2 => exact ⟨node2, rfl⟩
    rw [if_pos ht, showQuestion_current_eq]
    simp only [hs, jsString, hn2]
    by_cases ha : startsWithJs s "action_" = true
    · simp only [ha, if_true]
      refine ⟨id, ?_, by simp [hl]⟩
      simpa using hc
    · simp only [ha, Bool.false_eq_true, if_false]
      exact ⟨s, rfl, hsome⟩
  · rw [if_neg ht]
    refine ⟨id, ?_, by simp [hl]⟩
    simpa using hc

/-- Witness for C5: answering yes at the root of the closed tree. -/
theorem C5_no_dangling_transitions_witness :
    wellFormedTree treeW = true ∧
    (∃ v, (handleAnswer "yes" nodeW1 c5Witness).2.state.currentQuestion = some v ∧
      (List.lookup v treeW).isSome = true) := by
  refine ⟨by decide, ?_⟩
  exact C5_no_dangling_transitions c5Witness "q1" nodeW1 "yes"
    (by decide) (by decide) (by decide)

end Yaruki
